import Mathlib

/-!
Shallow embedding of the ball-bounce simulation core (`src/main.rs`).

Real-valued quantities (`f64` in the source) are modelled as exact rationals
`ℚ`.  The only operation of the source that has no exact rational counterpart
is `f64::sqrt`, used once in the pairwise collision resolution to normalise
the collision normal; the embedding abstracts it as a function parameter
`sq : ℚ → ℚ`, and theorems that depend on its defining property assume
`sq d * sq d = d` (and positivity) at the point of use, which is exactly what
the real square root satisfies on the positive inputs the code feeds it.

The Rust `%` operator on `f64` (remainder with truncated division) is
modelled by `rmod` below.  Vectors are Lean lists: `Vec::push` appends at the
end, `Vec::remove(0)` is `List.tail`, `Vec::pop` is `List.dropLast`.
-/

namespace BallSim

/-- Terminal colors used by the palette `BALL_COLORS` in the source. -/
inductive Color where
  | Yellow
  | Green
  | Red
  | Blue
  | Magenta
  | Cyan
  | LightRed
  | LightGreen
  deriving DecidableEq, Repr

/-- Source constant `MAX_HISTORY`. -/
def MAX_HISTORY : Nat := 300

/-- Source constant `BALL_CHARS` (the glyph palette). -/
def BALL_CHARS : List String := ["●", "◉", "○", "◎", "◆", "■", "▲", "★"]

/-- Source constant `BALL_COLORS` (the color palette). -/
def BALL_COLORS : List Color :=
  [Color.Yellow, Color.Green, Color.Red, Color.Blue,
   Color.Magenta, Color.Cyan, Color.LightRed, Color.LightGreen]

/-- Source constant `BALL_RADIUS = 0.75`. -/
def BALL_RADIUS : ℚ := 3/4

/-- The `Ball` struct of the source, with `f64` replaced by `ℚ` and the four
history vectors replaced by lists of `(tick-time, value)` pairs. -/
structure Ball where
  x : ℚ
  y : ℚ
  vx : ℚ
  vy : ℚ
  radius : ℚ
  color : Color
  char_idx : Nat
  x_history : List (ℚ × ℚ)
  y_history : List (ℚ × ℚ)
  vx_history : List (ℚ × ℚ)
  vy_history : List (ℚ × ℚ)
  deriving DecidableEq, Repr

/-- `Ball::new` from the source: fixed radius, color and glyph index taken
from the palettes by `index` modulo the palette length, empty histories. -/
def Ball.new (x y vx vy : ℚ) (index : Nat) : Ball :=
  { x := x
    y := y
    vx := vx
    vy := vy
    radius := BALL_RADIUS
    color := BALL_COLORS.getD (index % BALL_COLORS.length) Color.Yellow
    char_idx := index % BALL_CHARS.length
    x_history := []
    y_history := []
    vx_history := []
    vy_history := [] }

/-- The `App` struct of the source. -/
structure App where
  balls : List Ball
  paused : Bool
  tick_count : Nat
  ball_counter : Nat
  area_width : ℚ
  area_height : ℚ
  speed_multiplier : ℚ
  deriving DecidableEq, Repr

/-- Truncation toward zero on `ℚ`, the rounding used by Rust's `%` on `f64`. -/
def rtrunc (q : ℚ) : ℤ :=
  if 0 ≤ q then ⌊q⌋ else ⌈q⌉

/-- Rust's `%` remainder on `f64` values, modelled exactly on `ℚ`:
`a % b = a - b * trunc (a / b)`. -/
def rmod (a b : ℚ) : ℚ :=
  a - b * rtrunc (a / b)

/-- `App::add_ball` from the source: derives the new ball's initial position
and velocity deterministically from the creation counter `ball_counter`,
appends the ball, and increments the counter
(`7.3 = 73/10`, `4.1 = 41/10`, `0.17 = 17/100`, `0.8 = 4/5`,
`0.13 = 13/100`, `0.6 = 3/5` as exact rationals). -/
def add_ball (app : App) : App :=
  let idx := app.ball_counter
  let x := 5 + rmod ((idx : ℚ) * (73/10)) (max app.area_width 20)
  let y := 3 + rmod ((idx : ℚ) * (41/10)) (max app.area_height 10)
  let vx0 := 1/2 + rmod ((idx : ℚ) * (17/100)) (4/5)
  let vy0 := 3/10 + rmod ((idx : ℚ) * (13/100)) (3/5)
  let vx := if idx % 2 = 0 then vx0 else -vx0
  let vy := if idx % 3 = 0 then vy0 else -vy0
  { app with
      balls := app.balls ++ [Ball.new x y vx vy idx]
      ball_counter := idx + 1 }

/-- `App::remove_ball` from the source: pop the most recently added ball if
the list is non-empty, otherwise do nothing. -/
def remove_ball (app : App) : App :=
  if app.balls.isEmpty then app else { app with balls := app.balls.dropLast }

/-- `App::speed_up` from the source: add 0.25, clamp above at 5.0. -/
def speed_up (app : App) : App :=
  { app with speed_multiplier := min (app.speed_multiplier + 1/4) 5 }

/-- `App::speed_down` from the source: subtract 0.25, clamp below at 0.25. -/
def speed_down (app : App) : App :=
  { app with speed_multiplier := max (app.speed_multiplier - 1/4) (1/4) }

/-- The pause toggle performed by the key handler in `run_app`
(`app.paused = !app.paused`). -/
def toggle_pause (app : App) : App :=
  { app with paused := !app.paused }

/-- `App::new` from the source: empty state with arena 80 × 20, speed 1,
then one initial `add_ball`. -/
def App.new : App :=
  add_ball
    { balls := []
      paused := false
      tick_count := 0
      ball_counter := 0
      area_width := 80
      area_height := 20
      speed_multiplier := 1 }

/-- Position update of one ball inside `App::tick`
(`ball.x += ball.vx * speed_multiplier`, same for `y`). -/
def moveBall (m : ℚ) (b : Ball) : Ball :=
  { b with x := b.x + b.vx * m, y := b.y + b.vy * m }

/-- Squared center distance `dx*dx + dy*dy` of a pair, as in `App::tick`. -/
def distSq (bi bj : Ball) : ℚ :=
  (bj.x - bi.x) * (bj.x - bi.x) + (bj.y - bi.y) * (bj.y - bi.y)

/-- The collision guard of `App::tick`:
`dist_sq < min_dist * min_dist && dist_sq > 0.0`. -/
def collides (bi bj : Ball) : Prop :=
  distSq bi bj < (bi.radius + bj.radius) * (bi.radius + bj.radius) ∧ 0 < distSq bi bj

instance instDecidableCollides (bi bj : Ball) : Decidable (collides bi bj) := by
  unfold collides
  infer_instance

/-- Processing of one unordered pair `(i, j)` inside the collision loop of
`App::tick`.  `sq` stands for `f64::sqrt`, applied to the squared distance to
obtain `dist`.  If the guard holds: resolve velocities when the closing speed
`dvn` is positive (equal-mass impulse exchange along the normal), then push
the two balls apart along the normal by half the overlap plus `0.01`. -/
def pairStep (sq : ℚ → ℚ) (bi bj : Ball) : Ball × Ball :=
  if collides bi bj then
    let dist := sq (distSq bi bj)
    let nx := (bj.x - bi.x) / dist
    let ny := (bj.y - bi.y) / dist
    let dvn := (bi.vx - bj.vx) * nx + (bi.vy - bj.vy) * ny
    let p :=
      if 0 < dvn then
        ({ bi with vx := bi.vx - dvn * nx, vy := bi.vy - dvn * ny },
         { bj with vx := bj.vx + dvn * nx, vy := bj.vy + dvn * ny })
      else (bi, bj)
    let overlap := (bi.radius + bj.radius) - dist
    let sep := overlap / 2 + 1/100
    ({ p.1 with x := p.1.x - sep * nx, y := p.1.y - sep * ny },
     { p.2 with x := p.2.x + sep * nx, y := p.2.y + sep * ny })
  else (bi, bj)

/-- The index pairs `(i, j)` with `i < j < n`, in the order the nested loops
of `App::tick` visit them. -/
def pairIndices (n : Nat) : List (Nat × Nat) :=
  (List.range n).flatMap fun i =>
    ((List.range n).filter fun j => i < j).map fun j => (i, j)

/-- One iteration of the inner collision loop body: read balls `i` and `j`,
apply `pairStep`, write both back. -/
def resolvePair (sq : ℚ → ℚ) (bs : List Ball) (i j : Nat) : List Ball :=
  match bs[i]?, bs[j]? with
  | some bi, some bj =>
      let p := pairStep sq bi bj
      (bs.set i p.1).set j p.2
  | _, _ => bs

/-- The full pairwise collision pass of `App::tick`. -/
def collidePass (sq : ℚ → ℚ) (bs : List Ball) : List Ball :=
  (pairIndices bs.length).foldl (fun acc ij => resolvePair sq acc ij.1 ij.2) bs

/-- The wall-reflection step of `App::tick` for one ball: four sequential
`if`s, clamping each coordinate into `[0, dimension - 1]` and forcing the
velocity component sign (absolute value at the lower wall, negated absolute
value at the upper wall). -/
def wallBounce (w h : ℚ) (b : Ball) : Ball :=
  let b1 := if b.x ≤ 0 then { b with x := 0, vx := |b.vx| } else b
  let b2 := if b1.x ≥ w - 1 then { b1 with x := w - 1, vx := -|b1.vx| } else b1
  let b3 := if b2.y ≤ 0 then { b2 with y := 0, vy := |b2.vy| } else b2
  if b3.y ≥ h - 1 then { b3 with y := h - 1, vy := -|b3.vy| } else b3

/-- History append of `App::tick`: push the sample, then drop the oldest
entry (index 0) if the length now exceeds `MAX_HISTORY`. -/
def pushSample (hist : List (ℚ × ℚ)) (s : ℚ × ℚ) : List (ℚ × ℚ) :=
  let h2 := hist ++ [s]
  if MAX_HISTORY < h2.length then h2.tail else h2

/-- The history-recording step of `App::tick` for one ball at tick-time `t`:
one sample per sequence, all tagged `t`. -/
def recordBall (t : ℚ) (b : Ball) : Ball :=
  { b with
      x_history := pushSample b.x_history (t, b.x)
      y_history := pushSample b.y_history (t, b.y)
      vx_history := pushSample b.vx_history (t, b.vx)
      vy_history := pushSample b.vy_history (t, b.vy) }

/-- `App::tick` from the source: no-op while paused; otherwise increment the
tick counter, integrate positions, run the pairwise collision pass, then
apply wall reflection and record history for every ball. -/
def tick (sq : ℚ → ℚ) (app : App) : App :=
  if app.paused then app
  else
    let tc := app.tick_count + 1
    let t : ℚ := (tc : ℚ)
    let moved := app.balls.map (moveBall app.speed_multiplier)
    let collided := collidePass sq moved
    let finalBalls :=
      collided.map fun b => recordBall t (wallBounce app.area_width app.area_height b)
    { app with balls := finalBalls, tick_count := tc }

/-- All velocity samples of the requested axis across all balls, in the scan
order of `velocity_bounds` in the source. -/
def vsamples (app : App) (is_x : Bool) : List ℚ :=
  app.balls.flatMap fun b =>
    (if is_x then b.vx_history else b.vy_history).map Prod.snd

/-- One step of the running-minimum scan of `velocity_bounds`
(`if v < v_min { v_min = v }`).  The source seeds the scan with the sentinel
`f64::MAX`; the embedding uses `none` for the not-yet-seen state, which
behaves identically on every list of actual samples. -/
def minStep (acc : Option ℚ) (v : ℚ) : Option ℚ :=
  match acc with
  | none => some v
  | some m => if v < m then some v else some m

/-- One step of the running-maximum scan of `velocity_bounds`
(`if v > v_max { v_max = v }`), with `none` for the `f64::MIN` sentinel. -/
def maxStep (acc : Option ℚ) (v : ℚ) : Option ℚ :=
  match acc with
  | none => some v
  | some m => if m < v then some v else some m

/-- The running minimum of the sample scan. -/
def vminFold (l : List ℚ) : Option ℚ :=
  l.foldl minStep none

/-- The running maximum of the sample scan. -/
def vmaxFold (l : List ℚ) : Option ℚ :=
  l.foldl maxStep none

/-- `velocity_bounds` from the source: scan all samples of the axis for the
true min and max; if `v_min >= v_max` (no data, or a single repeated value —
in the source this includes the untouched-sentinel case) return `(-1, 1)`,
otherwise widen by the margin `(v_max - v_min) * 0.1` on each side.  It is a
pure function of the `App` value: it mutates nothing. -/
def velocity_bounds (app : App) (is_x : Bool) : ℚ × ℚ :=
  let samples := vsamples app is_x
  match vminFold samples, vmaxFold samples with
  | some vmin, some vmax =>
      if vmin ≥ vmax then (-1, 1)
      else (vmin - (vmax - vmin) * (1/10), vmax + (vmax - vmin) * (1/10))
  | _, _ => (-1, 1)

/-- The visual identity of a ball: its color together with its glyph index. -/
def ballIdent (b : Ball) : Color × Nat :=
  (b.color, b.char_idx)

/-- The visual identity assigned by `Ball::new` to creation index `idx`
(it depends only on the index). -/
def identity (idx : Nat) : Color × Nat :=
  ballIdent (Ball.new 0 0 0 0 idx)

/-- A sequence of speed commands applied in order: `true` is `speed_up`,
`false` is `speed_down`. -/
def speedOps (l : List Bool) (app : App) : App :=
  l.foldl (fun a c => if c then speed_up a else speed_down a) app

/-- The four history sequences of a ball, bundled (proof machinery: the
collision pass never touches this projection). -/
def histShape (b : Ball) : List (ℚ × ℚ) × List (ℚ × ℚ) × List (ℚ × ℚ) × List (ℚ × ℚ) :=
  (b.x_history, b.y_history, b.vx_history, b.vy_history)

/-- All histories of every ball are within the cap. -/
def histCapOK (app : App) : Prop :=
  ∀ b ∈ app.balls,
    b.x_history.length ≤ MAX_HISTORY ∧ b.y_history.length ≤ MAX_HISTORY ∧
    b.vx_history.length ≤ MAX_HISTORY ∧ b.vy_history.length ≤ MAX_HISTORY

/-- Timestamps of a history sequence. -/
def times (l : List (ℚ × ℚ)) : List ℚ :=
  l.map Prod.fst

/-- Effect of `pushSample` on timestamps alone. -/
def pushTime (l : List ℚ) (t : ℚ) : List ℚ :=
  let l2 := l ++ [t]
  if MAX_HISTORY < l2.length then l2.tail else l2

/-- The tick numbers retained after `k` unpaused ticks for a body present
from the start: the last `min k 300` of `1, …, k`. -/
def tlistN (k : Nat) : List Nat :=
  List.range' (k - min k MAX_HISTORY + 1) (min k MAX_HISTORY)

/-- `tlistN` cast to the rational tick-time axis. -/
def tlist (k : Nat) : List ℚ :=
  List.map (fun n : Nat => (n : ℚ)) (tlistN k)

/-- The timestamp lists of a ball's four histories, bundled. -/
def timesQuad (b : Ball) : List ℚ × List ℚ × List ℚ × List ℚ :=
  (times b.x_history, times b.y_history, times b.vx_history, times b.vy_history)

end BallSim

namespace BallSim

/-! ### Wall reflection (claim C1) -/

/-- C1 (amended): provided both arena dimensions are at least 1, every ball
leaves the wall-reflection phase of `App::tick` with
`0 ≤ x ≤ width − 1` and `0 ≤ y ≤ height − 1` (the lower wall clamps to 0
taking the absolute value of the velocity component, the upper wall clamps
to `dimension − 1` taking the negated absolute value).  For dimensions
strictly between 0 and 1 the claim fails, see the counterexample. -/
theorem C1_wall_clamp (w h : ℚ) (b : Ball) (hw : 1 ≤ w) (hh : 1 ≤ h) :
    0 ≤ (wallBounce w h b).x ∧ (wallBounce w h b).x ≤ w - 1 ∧
    0 ≤ (wallBounce w h b).y ∧ (wallBounce w h b).y ≤ h - 1 := by
  unfold wallBounce
  dsimp only
  split_ifs <;> refine ⟨?_, ?_, ?_, ?_⟩ <;> simp_all <;> linarith

/-- C1 counterexample: with arena width and height 1/2 (both > 0, as the
claim demands) a ball at (3/10, 3/10) ends the wall-reflection phase at
`x = width − 1 = −1/2 < 0`, violating `0 ≤ x`. -/
theorem C1_counterexample :
    (0 : ℚ) < 1/2 ∧
    ¬ (0 ≤ (wallBounce (1/2) (1/2)
        ⟨3/10, 3/10, 0, 0, 3/4, Color.Yellow, 0, [], [], [], []⟩).x) := by
  constructor
  · norm_num
  · norm_num [wallBounce]

/-- Witness for C1: the amended theorem applied to a 2 × 3 arena. -/
theorem C1_witness :
    0 ≤ (wallBounce 2 3 ⟨1, 1, 0, 0, 3/4, Color.Yellow, 0, [], [], [], []⟩).x ∧
    (wallBounce 2 3 ⟨1, 1, 0, 0, 3/4, Color.Yellow, 0, [], [], [], []⟩).x ≤ 2 - 1 ∧
    0 ≤ (wallBounce 2 3 ⟨1, 1, 0, 0, 3/4, Color.Yellow, 0, [], [], [], []⟩).y ∧
    (wallBounce 2 3 ⟨1, 1, 0, 0, 3/4, Color.Yellow, 0, [], [], [], []⟩).y ≤ 3 - 1 :=
  C1_wall_clamp 2 3 _ (by norm_num) (by norm_num)

/-! ### Pairwise collision resolution (claims C2, C3, C4) -/

/-- C2: processing a single pair inside the collision loop preserves both
component sums of the pair's velocities, `vx_i + vx_j` and `vy_i + vy_j`,
whatever value the square-root oracle returns (the equal-mass impulse
exchange subtracts from one ball exactly what it adds to the other). -/
theorem C2_momentum (sq : ℚ → ℚ) (bi bj : Ball) :
    (pairStep sq bi bj).1.vx + (pairStep sq bi bj).2.vx = bi.vx + bj.vx ∧
    (pairStep sq bi bj).1.vy + (pairStep sq bi bj).2.vy = bi.vy + bj.vy := by
  unfold pairStep
  dsimp only
  split_ifs <;> dsimp <;> constructor <;> ring

/-- C4: the collision predicate holds iff `0 < dist_sq < (r_i + r_j)²`; a
pair at squared distance exactly `(r_i + r_j)²` or exactly 0 is processed as
a no-op (both balls returned unchanged); and whenever the predicate holds
the squared distance is positive, so any value `d` with `d * d = dist_sq`
(in particular the real square root used as divisor) is nonzero. -/
theorem C4_detection (sq : ℚ → ℚ) (bi bj : Ball) :
    (collides bi bj ↔
      0 < distSq bi bj ∧
        distSq bi bj < (bi.radius + bj.radius) * (bi.radius + bj.radius)) ∧
    (¬ collides bi bj → pairStep sq bi bj = (bi, bj)) ∧
    (distSq bi bj = (bi.radius + bj.radius) * (bi.radius + bj.radius) →
      pairStep sq bi bj = (bi, bj)) ∧
    (distSq bi bj = 0 → pairStep sq bi bj = (bi, bj)) ∧
    (collides bi bj → ∀ d : ℚ, d * d = distSq bi bj → d ≠ 0) := by
  refine ⟨⟨fun hc => ⟨hc.2, hc.1⟩, fun hc => ⟨hc.2, hc.1⟩⟩, fun hn => ?_, fun he => ?_,
    fun h0 => ?_, fun hc d hd hd0 => ?_⟩
  · unfold pairStep
    rw [if_neg hn]
  · unfold pairStep
    rw [if_neg]
    intro hcol
    exact absurd hcol.1 (by rw [he]; exact lt_irrefl _)
  · unfold pairStep
    rw [if_neg]
    intro hcol
    exact absurd hcol.2 (by rw [h0]; exact lt_irrefl _)
  · rw [hd0, mul_zero] at hd
    exact absurd (hd ▸ hc.2) (lt_irrefl _)

/-- Witness for C4: two balls at center distance exactly `r_i + r_j = 3/2`
(squared distance `9/4`) are on the boundary and are left untouched. -/
theorem C4_witness :
    pairStep (fun q => q)
        ⟨0, 0, 1, 0, 3/4, Color.Yellow, 0, [], [], [], []⟩
        ⟨3/2, 0, -1, 0, 3/4, Color.Green, 1, [], [], [], []⟩ =
      (⟨0, 0, 1, 0, 3/4, Color.Yellow, 0, [], [], [], []⟩,
       ⟨3/2, 0, -1, 0, 3/4, Color.Green, 1, [], [], [], []⟩) :=
  (C4_detection (fun q => q) _ _).2.2.1 (by norm_num [distSq])

end BallSim

namespace BallSim

/-! ### Command handling (claims C7, C8, C10) -/

theorem speedOps_bounds (l : List Bool) :
    ∀ app : App, 1/4 ≤ app.speed_multiplier → app.speed_multiplier ≤ 5 →
      1/4 ≤ (speedOps l app).speed_multiplier ∧ (speedOps l app).speed_multiplier ≤ 5 := by
  induction l with
  | nil => exact fun app h1 h2 => ⟨h1, h2⟩
  | cons c t ih =>
      intro app h1 h2
      have hstep : speedOps (c :: t) app = speedOps t (if c then speed_up app else speed_down app) := by
        rw [speedOps, speedOps, List.foldl_cons]
      rw [hstep]
      refine ih _ ?_ ?_
      · cases c <;> simp only [speed_up, speed_down, if_true, if_false]
        · exact le_max_right _ _
        · exact le_min (by linarith) (by norm_num)
      · cases c <;> simp only [speed_up, speed_down, if_true, if_false]
        · exact max_le (by linarith) (by norm_num)
        · exact min_le_right _ _

/-- C7: commands are total and only no-op or clamp.  `remove_ball` on an
empty list returns the state unchanged (count stays 0); in every state it
removes exactly the last (most recently added) ball and leaves the creation
counter untouched; and any sequence of speed commands starting from
multiplier 1 keeps the multiplier inside `[1/4, 5]`. -/
theorem C7_commands (app : App) :
    (app.balls = [] → remove_ball app = app ∧ (remove_ball app).balls.length = 0) ∧
    (remove_ball app).balls = app.balls.dropLast ∧
    (remove_ball app).ball_counter = app.ball_counter ∧
    (∀ l : List Bool, app.speed_multiplier = 1 →
      1/4 ≤ (speedOps l app).speed_multiplier ∧ (speedOps l app).speed_multiplier ≤ 5) := by
  refine ⟨fun he => ?_, ?_, ?_, fun l h1 => speedOps_bounds l app (by rw [h1]; norm_num) (by rw [h1]; norm_num)⟩
  · have : app.balls.isEmpty = true := by rw [he]; rfl
    rw [remove_ball, if_pos this, he]
    exact ⟨rfl, rfl⟩
  · rw [remove_ball]
    split_ifs with he
    · rw [List.isEmpty_iff.mp he]
      rfl
    · rfl
  · rw [remove_ball]
    split_ifs <;> rfl

/-- Witness for C7: applied to the initial app (one ball, multiplier 1),
with a concrete speed-command sequence. -/
theorem C7_witness :
    (remove_ball App.new).balls = App.new.balls.dropLast ∧
    1/4 ≤ (speedOps [true, true, false] App.new).speed_multiplier ∧
    (speedOps [true, true, false] App.new).speed_multiplier ≤ 5 := by
  refine ⟨(C7_commands App.new).2.1, ?_, ?_⟩
  · exact ((C7_commands App.new).2.2.2 [true, true, false] rfl).1
  · exact ((C7_commands App.new).2.2.2 [true, true, false] rfl).2

/-- C8 (amended): the visual identity is the deterministic function
`index mod palette size` (both palettes have 8 entries), the creation
counter only ever increases (`add_ball` increments it, `remove_ball` leaves
it alone), and two creation indices receive the same identity exactly when
they are congruent modulo 8 — so identities DO repeat once more than 8
balls have been created, and are distinct only among indices differing by
less than 8. -/
theorem C8_identity (i j : Nat) :
    (identity i = identity j ↔ i % 8 = j % 8) ∧
    (∀ app : App,
      (add_ball app).balls.getLast?.map ballIdent = some (identity app.ball_counter) ∧
      (add_ball app).ball_counter = app.ball_counter + 1 ∧
      (remove_ball app).ball_counter = app.ball_counter) := by
  constructor
  · constructor
    · intro hij
      have h2 := congrArg Prod.snd hij
      simpa [identity, ballIdent, Ball.new, BALL_CHARS] using h2
    · intro hmod
      have hc : BALL_CHARS.length = 8 := rfl
      have hco : BALL_COLORS.length = 8 := rfl
      simp only [identity, ballIdent, Ball.new, hc, hco, hmod]
  · intro app
    refine ⟨?_, rfl, ?_⟩
    · simp only [add_ball, List.getLast?_concat, Option.map_some]
      rfl
    · rw [remove_ball]
      split_ifs <;> rfl

/-- C8 counterexample: after eight further `add_ball` calls on the initial
app, balls number 0 and number 8 coexist and carry the SAME color and the
same glyph index, refuting "no two bodies ever receive a repeated
identity". -/
theorem C8_counterexample :
    ((add_ball^[8] App.new).balls.map ballIdent)[0]? =
      ((add_ball^[8] App.new).balls.map ballIdent)[8]? ∧
    ((add_ball^[8] App.new).balls.map ballIdent)[0]? = some (Color.Yellow, 0) ∧
    (add_ball^[8] App.new).balls.length = 9 := by
  refine ⟨?_, ?_, ?_⟩ <;> decide

/-- Witness for C8: indices 3 and 11 are congruent mod 8 and indeed receive
the same identity. -/
theorem C8_witness : identity 3 = identity 11 :=
  ((C8_identity 3 11).1).mpr (by decide)

theorem rmod_bounds (a b : ℚ) (ha : 0 ≤ a) (hb : 0 < b) :
    0 ≤ rmod a b ∧ rmod a b < b := by
  have hab : 0 ≤ a / b := div_nonneg ha hb.le
  have ht : rtrunc (a / b) = ⌊a / b⌋ := if_pos hab
  have hba : b * (a / b) = a := by field_simp
  have hfr : rmod a b = b * Int.fract (a / b) := by
    rw [rmod, ht, ← Int.self_sub_floor, mul_sub, hba]
  constructor
  · rw [hfr]
    exact mul_nonneg hb.le (Int.fract_nonneg _)
  · rw [hfr]
    calc b * Int.fract (a / b) < b * 1 := by
          exact mul_lt_mul_of_pos_left (Int.fract_lt_one _) hb
      _ = b := mul_one b

/-- C10: the ball appended by `add_ball` always starts with strictly nonzero
velocity in both components: `|vx| ∈ [1/2, 13/10)` and `|vy| ∈ [3/10, 9/10)`,
with the sign of `vx` decided by the creation index's parity and the sign of
`vy` by the index mod 3. -/
theorem C10_initial_velocity (app : App) :
    ∃ b : Ball, (add_ball app).balls.getLast? = some b ∧
      1/2 ≤ |b.vx| ∧ |b.vx| < 13/10 ∧ 3/10 ≤ |b.vy| ∧ |b.vy| < 9/10 ∧
      b.vx ≠ 0 ∧ b.vy ≠ 0 ∧
      (app.ball_counter % 2 = 0 → 0 < b.vx) ∧
      (app.ball_counter % 2 ≠ 0 → b.vx < 0) ∧
      (app.ball_counter % 3 = 0 → 0 < b.vy) ∧
      (app.ball_counter % 3 ≠ 0 → b.vy < 0) := by
  obtain ⟨hx0, hxlt⟩ :=
    rmod_bounds ((app.ball_counter : ℚ) * (17/100)) (4/5) (by positivity) (by norm_num)
  obtain ⟨hy0, hylt⟩ :=
    rmod_bounds ((app.ball_counter : ℚ) * (13/100)) (3/5) (by positivity) (by norm_num)
  refine ⟨Ball.new (5 + rmod ((app.ball_counter : ℚ) * (73/10)) (max app.area_width 20))
      (3 + rmod ((app.ball_counter : ℚ) * (41/10)) (max app.area_height 10))
      (if app.ball_counter % 2 = 0
        then 1/2 + rmod ((app.ball_counter : ℚ) * (17/100)) (4/5)
        else -(1/2 + rmod ((app.ball_counter : ℚ) * (17/100)) (4/5)))
      (if app.ball_counter % 3 = 0
        then 3/10 + rmod ((app.ball_counter : ℚ) * (13/100)) (3/5)
        else -(3/10 + rmod ((app.ball_counter : ℚ) * (13/100)) (3/5)))
      app.ball_counter,
    by simp only [add_ball, List.getLast?_concat], ?_⟩
  set mx : ℚ := 1/2 + rmod ((app.ball_counter : ℚ) * (17/100)) (4/5) with hmx
  set my : ℚ := 3/10 + rmod ((app.ball_counter : ℚ) * (13/100)) (3/5) with hmy
  have hmxpos : 0 < mx := by rw [hmx]; linarith
  have hmypos : 0 < my := by rw [hmy]; linarith
  simp only [Ball.new]
  have habsx : |if app.ball_counter % 2 = 0 then mx else -mx| = mx := by
    split_ifs
    · exact abs_of_pos hmxpos
    · rw [abs_neg]; exact abs_of_pos hmxpos
  have habsy : |if app.ball_counter % 3 = 0 then my else -my| = my := by
    split_ifs
    · exact abs_of_pos hmypos
    · rw [abs_neg]; exact abs_of_pos hmypos
  rw [habsx, habsy]
  refine ⟨by rw [hmx]; linarith, by rw [hmx]; linarith, by rw [hmy]; linarith,
    by rw [hmy]; linarith, ?_, ?_, ?_, ?_, ?_, ?_⟩
  · split_ifs
    · exact ne_of_gt hmxpos
    · exact ne_of_lt (neg_neg_iff_pos.mpr hmxpos)
  · split_ifs
    · exact ne_of_gt hmypos
    · exact ne_of_lt (neg_neg_iff_pos.mpr hmypos)
  · intro h
    rw [if_pos h]
    exact hmxpos
  · intro h
    rw [if_neg h]
    exact neg_neg_iff_pos.mpr hmxpos
  · intro h
    rw [if_pos h]
    exact hmypos
  · intro h
    rw [if_neg h]
    exact neg_neg_iff_pos.mpr hmypos

/-- Witness for C10: the second ball (creation index 1: odd, not divisible
by 3) starts moving with both components strictly negative. -/
theorem C10_witness :
    ∃ b : Ball, (add_ball App.new).balls.getLast? = some b ∧ b.vx < 0 ∧ b.vy < 0 := by
  obtain ⟨b, hb, _, _, _, _, _, _, _, h9, _, h11⟩ := C10_initial_velocity App.new
  exact ⟨b, hb, h9 (by decide), h11 (by decide)⟩

end BallSim

namespace BallSim

/-! ### Closing speed after resolution (claim C3) -/

theorem resolve_closing (vix viy vjx vjy nx ny : ℚ)
    (hunit : nx * nx + ny * ny = 1)
    (hdvn : 0 < (vix - vjx) * nx + (viy - vjy) * ny) :
    ((vix - ((vix - vjx) * nx + (viy - vjy) * ny) * nx) -
      (vjx + ((vix - vjx) * nx + (viy - vjy) * ny) * nx)) * nx +
    ((viy - ((vix - vjx) * nx + (viy - vjy) * ny) * ny) -
      (vjy + ((vix - vjx) * nx + (viy - vjy) * ny) * ny)) * ny ≤ 0 := by
  have key : ((vix - ((vix - vjx) * nx + (viy - vjy) * ny) * nx) -
      (vjx + ((vix - vjx) * nx + (viy - vjy) * ny) * nx)) * nx +
    ((viy - ((vix - vjx) * nx + (viy - vjy) * ny) * ny) -
      (vjy + ((vix - vjx) * nx + (viy - vjy) * ny) * ny)) * ny =
      -((vix - vjx) * nx + (viy - vjy) * ny) := by
    linear_combination (-2 * ((vix - vjx) * nx + (viy - vjy) * ny)) * hunit
  rw [key]
  linarith

/-- C3: for a colliding pair (so the guard holds) and a square-root value
`D` with `D * D = dist_sq`, if the closing speed `dvn` along the collision
normal is positive the resolution makes the post-resolution closing speed
along the same normal non-positive, and if `dvn ≤ 0` the pair's velocities
are left untouched (only the positional separation applies). -/
theorem C3_closing_speed (sq : ℚ → ℚ) (bi bj : Ball)
    (hcol : collides bi bj)
    (hsq : sq (distSq bi bj) * sq (distSq bi bj) = distSq bi bj) :
    (0 < (bi.vx - bj.vx) * ((bj.x - bi.x) / sq (distSq bi bj)) +
         (bi.vy - bj.vy) * ((bj.y - bi.y) / sq (distSq bi bj)) →
      ((pairStep sq bi bj).1.vx - (pairStep sq bi bj).2.vx) *
          ((bj.x - bi.x) / sq (distSq bi bj)) +
        ((pairStep sq bi bj).1.vy - (pairStep sq bi bj).2.vy) *
          ((bj.y - bi.y) / sq (distSq bi bj)) ≤ 0) ∧
    ((bi.vx - bj.vx) * ((bj.x - bi.x) / sq (distSq bi bj)) +
       (bi.vy - bj.vy) * ((bj.y - bi.y) / sq (distSq bi bj)) ≤ 0 →
      (pairStep sq bi bj).1.vx = bi.vx ∧ (pairStep sq bi bj).1.vy = bi.vy ∧
      (pairStep sq bi bj).2.vx = bj.vx ∧ (pairStep sq bi bj).2.vy = bj.vy) := by
  have hDne : sq (distSq bi bj) ≠ 0 := by
    intro h
    rw [h, mul_zero] at hsq
    exact absurd (hsq ▸ hcol.2) (lt_irrefl _)
  have key : sq (distSq bi bj) * sq (distSq bi bj) =
      (bj.x - bi.x) * (bj.x - bi.x) + (bj.y - bi.y) * (bj.y - bi.y) := by
    rw [hsq]
    rfl
  have hunit : ((bj.x - bi.x) / sq (distSq bi bj)) * ((bj.x - bi.x) / sq (distSq bi bj)) +
      ((bj.y - bi.y) / sq (distSq bi bj)) * ((bj.y - bi.y) / sq (distSq bi bj)) = 1 := by
    rw [div_mul_div_comm, div_mul_div_comm, div_add_div_same, ← key]
    exact div_self (mul_ne_zero hDne hDne)
  constructor
  · intro hdvn
    simp only [pairStep, if_pos hcol]
    rw [if_pos hdvn]
    exact resolve_closing bi.vx bi.vy bj.vx bj.vy _ _ hunit hdvn
  · intro hle
    simp only [pairStep, if_pos hcol]
    rw [if_neg (not_lt.mpr hle)]
    exact ⟨rfl, rfl, rfl, rfl⟩

/-- Witness for C3: two overlapping balls of radius 1 at distance 1, the
left one moving right into the stationary right one; after resolution the
closing speed along the normal is no longer positive. -/
theorem C3_witness :
    ((pairStep (fun _ => (1:ℚ))
          ⟨0, 0, 1, 0, 1, Color.Yellow, 0, [], [], [], []⟩
          ⟨1, 0, 0, 0, 1, Color.Green, 1, [], [], [], []⟩).1.vx -
      (pairStep (fun _ => (1:ℚ))
          ⟨0, 0, 1, 0, 1, Color.Yellow, 0, [], [], [], []⟩
          ⟨1, 0, 0, 0, 1, Color.Green, 1, [], [], [], []⟩).2.vx) * (((1:ℚ) - 0) / 1) +
    ((pairStep (fun _ => (1:ℚ))
          ⟨0, 0, 1, 0, 1, Color.Yellow, 0, [], [], [], []⟩
          ⟨1, 0, 0, 0, 1, Color.Green, 1, [], [], [], []⟩).1.vy -
      (pairStep (fun _ => (1:ℚ))
          ⟨0, 0, 1, 0, 1, Color.Yellow, 0, [], [], [], []⟩
          ⟨1, 0, 0, 0, 1, Color.Green, 1, [], [], [], []⟩).2.vy) * (((0:ℚ) - 0) / 1) ≤ 0 :=
  (C3_closing_speed (fun _ => (1:ℚ))
      ⟨0, 0, 1, 0, 1, Color.Yellow, 0, [], [], [], []⟩
      ⟨1, 0, 0, 0, 1, Color.Green, 1, [], [], [], []⟩
      (by constructor <;> norm_num [distSq])
      (by norm_num [distSq])).1 (by norm_num [distSq])

end BallSim

namespace BallSim

/-! ### Velocity bounds query (claim C9) -/

theorem foldl_minStep_some (l : List ℚ) :
    ∀ m : ℚ, ∃ r, l.foldl minStep (some m) = some r ∧ r ≤ m ∧
      (r = m ∨ r ∈ l) ∧ ∀ v ∈ l, r ≤ v := by
  induction l with
  | nil => exact fun m => ⟨m, rfl, le_refl m, Or.inl rfl, by simp⟩
  | cons a t ih =>
      intro m
      rw [List.foldl_cons]
      by_cases h : a < m
      · have hstep : minStep (some m) a = some a := by simp [minStep, if_pos h]
        rw [hstep]
        obtain ⟨r, hr, hrm, hmem, hall⟩ := ih a
        refine ⟨r, hr, le_trans hrm h.le, Or.inr ?_, ?_⟩
        · rcases hmem with he | hm
          · rw [he]; exact List.mem_cons_self a t
          · exact List.mem_cons_of_mem a hm
        · intro v hv
          rcases List.mem_cons.mp hv with rfl | hv
          · exact hrm
          · exact hall v hv
      · have hstep : minStep (some m) a = some m := by simp [minStep, if_neg h]
        rw [hstep]
        obtain ⟨r, hr, hrm, hmem, hall⟩ := ih m
        refine ⟨r, hr, hrm, ?_, ?_⟩
        · rcases hmem with he | hm
          · exact Or.inl he
          · exact Or.inr (List.mem_cons_of_mem a hm)
        · intro v hv
          rcases List.mem_cons.mp hv with rfl | hv
          · exact le_trans hrm (not_lt.mp h)
          · exact hall v hv

theorem foldl_maxStep_some (l : List ℚ) :
    ∀ m : ℚ, ∃ r, l.foldl maxStep (some m) = some r ∧ m ≤ r ∧
      (r = m ∨ r ∈ l) ∧ ∀ v ∈ l, v ≤ r := by
  induction l with
  | nil => exact fun m => ⟨m, rfl, le_refl m, Or.inl rfl, by simp⟩
  | cons a t ih =>
      intro m
      rw [List.foldl_cons]
      by_cases h : m < a
      · have hstep : maxStep (some m) a = some a := by simp [maxStep, if_pos h]
        rw [hstep]
        obtain ⟨r, hr, hrm, hmem, hall⟩ := ih a
        refine ⟨r, hr, le_trans h.le hrm, Or.inr ?_, ?_⟩
        · rcases hmem with he | hm
          · rw [he]; exact List.mem_cons_self a t
          · exact List.mem_cons_of_mem a hm
        · intro v hv
          rcases List.mem_cons.mp hv with rfl | hv
          · exact hrm
          · exact hall v hv
      · have hstep : maxStep (some m) a = some m := by simp [maxStep, if_neg h]
        rw [hstep]
        obtain ⟨r, hr, hrm, hmem, hall⟩ := ih m
        refine ⟨r, hr, hrm, ?_, ?_⟩
        · rcases hmem with he | hm
          · exact Or.inl he
          · exact Or.inr (List.mem_cons_of_mem a hm)
        · intro v hv
          rcases List.mem_cons.mp hv with rfl | hv
          · exact le_trans (not_lt.mp h) hrm
          · exact hall v hv

theorem vminFold_cons (a : ℚ) (t : List ℚ) :
    ∃ r, vminFold (a :: t) = some r ∧ r ∈ a :: t ∧ ∀ v ∈ a :: t, r ≤ v := by
  obtain ⟨r, hr, hrm, hmem, hall⟩ := foldl_minStep_some t a
  refine ⟨r, ?_, ?_, ?_⟩
  · rw [vminFold, List.foldl_cons]
    exact hr
  · rcases hmem with he | hm
    · rw [he]; exact List.mem_cons_self a t
    · exact List.mem_cons_of_mem a hm
  · intro v hv
    rcases List.mem_cons.mp hv with rfl | hv
    · exact hrm
    · exact hall v hv

theorem vmaxFold_cons (a : ℚ) (t : List ℚ) :
    ∃ r, vmaxFold (a :: t) = some r ∧ r ∈ a :: t ∧ ∀ v ∈ a :: t, v ≤ r := by
  obtain ⟨r, hr, hrm, hmem, hall⟩ := foldl_maxStep_some t a
  refine ⟨r, ?_, ?_, ?_⟩
  · rw [vmaxFold, List.foldl_cons]
    exact hr
  · rcases hmem with he | hm
    · rw [he]; exact List.mem_cons_self a t
    · exact List.mem_cons_of_mem a hm
  · intro v hv
    rcases List.mem_cons.mp hv with rfl | hv
    · exact hrm
    · exact hall v hv

/-- C9: `velocity_bounds` returns `(-1, 1)` when there are no samples, and
otherwise, for the true minimum and maximum of the axis samples (stated
here through their defining properties: membership plus being a lower/upper
bound), it returns exactly the pair
`(min − span·1/10, max + span·1/10)` when `min < max` and `(-1, 1)` when
`min ≥ max`.  Being a plain function of the `App` value, it cannot mutate
history. -/
theorem C9_velocity_bounds (app : App) (is_x : Bool) :
    (vsamples app is_x = [] → velocity_bounds app is_x = (-1, 1)) ∧
    (∀ vmin vmax : ℚ, vmin ∈ vsamples app is_x → vmax ∈ vsamples app is_x →
      (∀ v ∈ vsamples app is_x, vmin ≤ v ∧ v ≤ vmax) →
      (vmax ≤ vmin → velocity_bounds app is_x = (-1, 1)) ∧
      (vmin < vmax →
        velocity_bounds app is_x =
          (vmin - (vmax - vmin) * (1/10), vmax + (vmax - vmin) * (1/10)))) := by
  constructor
  · intro he
    simp only [velocity_bounds, he, vminFold, vmaxFold, List.foldl_nil]
  · intro vmin vmax hminmem hmaxmem hbound
    rcases hs : vsamples app is_x with _ | ⟨a, t⟩
    · rw [hs] at hminmem
      exact absurd hminmem (List.not_mem_nil _)
    · obtain ⟨rmin, hfmin, hrminmem, hrminle⟩ := vminFold_cons a t
      obtain ⟨rmax, hfmax, hrmaxmem, hrmaxge⟩ := vmaxFold_cons a t
      rw [hs] at hminmem hmaxmem hbound
      have hvmin : vmin = rmin :=
        le_antisymm (hbound rmin hrminmem).1 (hrminle vmin hminmem)
      have hvmax : vmax = rmax :=
        le_antisymm (hrmaxge vmax hmaxmem) (hbound rmax hrmaxmem).2
      have hvb : velocity_bounds app is_x =
          if rmin ≥ rmax then ((-1 : ℚ), (1 : ℚ))
          else (rmin - (rmax - rmin) * (1/10), rmax + (rmax - rmin) * (1/10)) := by
        simp only [velocity_bounds, hs, hfmin, hfmax]
      rw [hvb, ← hvmin, ← hvmax]
      constructor
      · intro hle
        rw [if_pos hle]
      · intro hlt
        rw [if_neg (not_le.mpr hlt)]

/-- Witness for C9: one ball whose vx history holds the samples 2 and 4;
the x-axis velocity bounds are the true min/max widened by a tenth of the
span. -/
theorem C9_witness :
    velocity_bounds
        ⟨[⟨0, 0, 0, 0, 1, Color.Yellow, 0, [], [], [(1, 2), (2, 4)], []⟩],
          false, 0, 0, 80, 20, 1⟩ true =
      (2 - (4 - 2) * (1/10), 4 + (4 - 2) * (1/10)) :=
  ((C9_velocity_bounds
      ⟨[⟨0, 0, 0, 0, 1, Color.Yellow, 0, [], [], [(1, 2), (2, 4)], []⟩],
        false, 0, 0, 80, 20, 1⟩ true).2 2 4
    (by simp [vsamples]) (by simp [vsamples])
    (by simp [vsamples]; norm_num)).2 (by norm_num)

end BallSim

namespace BallSim

/-! ### History-preservation infrastructure (for claims C5 and C6) -/

theorem pairStep_fst_histShape (sq : ℚ → ℚ) (bi bj : Ball) :
    histShape (pairStep sq bi bj).1 = histShape bi := by
  unfold pairStep
  split_ifs with hc
  · dsimp only
    split_ifs with hd <;> rfl
  · rfl

theorem pairStep_snd_histShape (sq : ℚ → ℚ) (bi bj : Ball) :
    histShape (pairStep sq bi bj).2 = histShape bj := by
  unfold pairStep
  split_ifs with hc
  · dsimp only
    split_ifs with hd <;> rfl
  · rfl

theorem set_of_getElem? {α : Type _} (l : List α) :
    ∀ (i : Nat) (a : α), l[i]? = some a → l.set i a = l := by
  induction l with
  | nil => intro i a h; simp at h
  | cons x t ih =>
      intro i a h
      cases i with
      | zero =>
          rw [List.getElem?_cons_zero, Option.some.injEq] at h
          rw [← h]
          rfl
      | succ n =>
          rw [List.getElem?_cons_succ] at h
          rw [List.set_cons_succ, ih n a h]

theorem resolvePair_map_histShape (sq : ℚ → ℚ) (bs : List Ball) (i j : Nat) :
    (resolvePair sq bs i j).map histShape = bs.map histShape := by
  unfold resolvePair
  rcases hi : bs[i]? with _ | bi <;> rcases hj : bs[j]? with _ | bj
  · rfl
  · rfl
  · rfl
  · dsimp only
    rw [List.map_set, List.map_set, pairStep_fst_histShape, pairStep_snd_histShape]
    have h1 : (bs.map histShape)[i]? = some (histShape bi) := by
      rw [List.getElem?_map, hi]
      rfl
    rw [set_of_getElem? (bs.map histShape) i (histShape bi) h1]
    have h2 : (bs.map histShape)[j]? = some (histShape bj) := by
      rw [List.getElem?_map, hj]
      rfl
    rw [set_of_getElem? (bs.map histShape) j (histShape bj) h2]

theorem foldl_resolvePair_map_histShape (sq : ℚ → ℚ) (ps : List (Nat × Nat)) :
    ∀ bs : List Ball,
      (ps.foldl (fun acc ij => resolvePair sq acc ij.1 ij.2) bs).map histShape =
        bs.map histShape := by
  induction ps with
  | nil => intro bs; rfl
  | cons p pt ih =>
      intro bs
      rw [List.foldl_cons, ih, resolvePair_map_histShape]

theorem collidePass_map_histShape (sq : ℚ → ℚ) (bs : List Ball) :
    (collidePass sq bs).map histShape = bs.map histShape := by
  unfold collidePass
  exact foldl_resolvePair_map_histShape sq (pairIndices bs.length) bs

theorem collidePass_length (sq : ℚ → ℚ) (bs : List Ball) :
    (collidePass sq bs).length = bs.length := by
  have h := congrArg List.length (collidePass_map_histShape sq bs)
  rwa [List.length_map, List.length_map] at h

theorem moveBall_histShape (m : ℚ) (b : Ball) : histShape (moveBall m b) = histShape b := rfl

theorem wallBounce_histShape (w h : ℚ) (b : Ball) :
    histShape (wallBounce w h b) = histShape b := by
  unfold wallBounce
  dsimp only
  split_ifs <;> rfl

theorem wallBounce_x_history (w h : ℚ) (b : Ball) :
    (wallBounce w h b).x_history = b.x_history :=
  congrArg (fun q => q.1) (wallBounce_histShape w h b)

theorem wallBounce_y_history (w h : ℚ) (b : Ball) :
    (wallBounce w h b).y_history = b.y_history :=
  congrArg (fun q => q.2.1) (wallBounce_histShape w h b)

theorem wallBounce_vx_history (w h : ℚ) (b : Ball) :
    (wallBounce w h b).vx_history = b.vx_history :=
  congrArg (fun q => q.2.2.1) (wallBounce_histShape w h b)

theorem wallBounce_vy_history (w h : ℚ) (b : Ball) :
    (wallBounce w h b).vy_history = b.vy_history :=
  congrArg (fun q => q.2.2.2) (wallBounce_histShape w h b)

theorem tick_paused_eq (sq : ℚ → ℚ) (app : App) (h : app.paused = true) :
    tick sq app = app := by
  rw [tick, if_pos h]

theorem tick_not_paused (sq : ℚ → ℚ) (app : App) (h : app.paused = false) :
    tick sq app =
      { app with
          balls :=
            (collidePass sq (app.balls.map (moveBall app.speed_multiplier))).map
              fun b =>
                recordBall ((app.tick_count + 1 : Nat) : ℚ)
                  (wallBounce app.area_width app.area_height b)
          tick_count := app.tick_count + 1 } := by
  rw [tick, if_neg (by rw [h]; exact Bool.false_ne_true)]

end BallSim

namespace BallSim

theorem tick_ball_history (sq : ℚ → ℚ) (app : App) (h : app.paused = false)
    (i : Nat) (bi : Ball) (hbi : app.balls[i]? = some bi) :
    ∃ nb, (tick sq app).balls[i]? = some nb ∧
      nb.x_history = pushSample bi.x_history (((app.tick_count + 1 : Nat) : ℚ), nb.x) ∧
      nb.y_history = pushSample bi.y_history (((app.tick_count + 1 : Nat) : ℚ), nb.y) ∧
      nb.vx_history = pushSample bi.vx_history (((app.tick_count + 1 : Nat) : ℚ), nb.vx) ∧
      nb.vy_history = pushSample bi.vy_history (((app.tick_count + 1 : Nat) : ℚ), nb.vy) := by
  have hm : (app.balls.map (moveBall app.speed_multiplier))[i]? =
      some (moveBall app.speed_multiplier bi) := by
    rw [List.getElem?_map, hbi]
    rfl
  obtain ⟨hilt, _⟩ := List.getElem?_eq_some_iff.mp hm
  have hclen : i < (collidePass sq (app.balls.map (moveBall app.speed_multiplier))).length := by
    rw [collidePass_length]
    exact hilt
  obtain ⟨c, hc⟩ :
      ∃ c, (collidePass sq (app.balls.map (moveBall app.speed_multiplier)))[i]? = some c :=
    ⟨_, List.getElem?_eq_getElem hclen⟩
  have hcs : histShape c = histShape bi := by
    have h1 : ((collidePass sq (app.balls.map (moveBall app.speed_multiplier))).map
        histShape)[i]? = some (histShape c) := by
      rw [List.getElem?_map, hc]
      rfl
    rw [collidePass_map_histShape, List.getElem?_map, hm] at h1
    have h2 : histShape (moveBall app.speed_multiplier bi) = histShape c := by
      simpa using h1
    rw [← h2, moveBall_histShape]
  have hxh : c.x_history = bi.x_history := congrArg (fun q => q.1) hcs
  have hyh : c.y_history = bi.y_history := congrArg (fun q => q.2.1) hcs
  have hvxh : c.vx_history = bi.vx_history := congrArg (fun q => q.2.2.1) hcs
  have hvyh : c.vy_history = bi.vy_history := congrArg (fun q => q.2.2.2) hcs
  refine ⟨recordBall ((app.tick_count + 1 : Nat) : ℚ)
      (wallBounce app.area_width app.area_height c), ?_, ?_, ?_, ?_, ?_⟩
  · rw [tick_not_paused sq app h]
    dsimp only
    rw [List.getElem?_map, hc]
    rfl
  · dsimp only [recordBall]
    rw [wallBounce_x_history, hxh]
  · dsimp only [recordBall]
    rw [wallBounce_y_history, hyh]
  · dsimp only [recordBall]
    rw [wallBounce_vx_history, hvxh]
  · dsimp only [recordBall]
    rw [wallBounce_vy_history, hvyh]

theorem pushSample_length_le (hist : List (ℚ × ℚ)) (s : ℚ × ℚ)
    (hle : hist.length ≤ MAX_HISTORY) :
    (pushSample hist s).length ≤ MAX_HISTORY := by
  unfold pushSample
  dsimp only
  split_ifs with hgt
  · simp only [List.length_tail, List.length_append, List.length_cons, List.length_nil] at hgt ⊢
    omega
  · simp only [List.length_append, List.length_cons, List.length_nil] at hgt ⊢
    omega

/-- C6: while the paused flag is set, any number of tick calls leaves the
whole state unchanged (the same `App` value: counter, bodies, histories);
with the flag cleared, a single tick increments the tick counter by exactly
1, keeps the body count, and gives every body exactly one new sample per
history sequence, tagged with the new tick value (`pushSample` appends it,
evicting the oldest sample only if the cap would be exceeded). -/
theorem C6_pause_tick (sq : ℚ → ℚ) (app : App) (n : Nat) :
    (app.paused = true → (tick sq)^[n] app = app) ∧
    (app.paused = false →
      (tick sq app).tick_count = app.tick_count + 1 ∧
      (tick sq app).balls.length = app.balls.length ∧
      ∀ (i : Nat) (bi : Ball), app.balls[i]? = some bi →
        ∃ nb, (tick sq app).balls[i]? = some nb ∧
          nb.x_history = pushSample bi.x_history (((app.tick_count + 1 : Nat) : ℚ), nb.x) ∧
          nb.y_history = pushSample bi.y_history (((app.tick_count + 1 : Nat) : ℚ), nb.y) ∧
          nb.vx_history = pushSample bi.vx_history (((app.tick_count + 1 : Nat) : ℚ), nb.vx) ∧
          nb.vy_history = pushSample bi.vy_history (((app.tick_count + 1 : Nat) : ℚ), nb.vy)) := by
  constructor
  · intro hp
    induction n with
    | zero => rfl
    | succ k ih => rw [Function.iterate_succ_apply, tick_paused_eq sq app hp, ih]
  · intro hp
    refine ⟨?_, ?_, fun i bi hbi => tick_ball_history sq app hp i bi hbi⟩
    · rw [tick_not_paused sq app hp]
    · rw [tick_not_paused sq app hp]
      dsimp only
      rw [List.length_map, collidePass_length, List.length_map]

/-- Witness for C6: pausing the initial app freezes it across five ticks;
unpaused, one tick takes the counter from 0 to 1. -/
theorem C6_witness :
    (tick (fun q => q))^[5] (toggle_pause App.new) = toggle_pause App.new ∧
    (tick (fun q => q) App.new).tick_count = App.new.tick_count + 1 :=
  ⟨(C6_pause_tick (fun q => q) (toggle_pause App.new) 5).1 rfl,
   ((C6_pause_tick (fun q => q) App.new 1).2 rfl).1⟩

end BallSim

namespace BallSim

theorem times_pushSample (l : List (ℚ × ℚ)) (t v : ℚ) :
    times (pushSample l (t, v)) = pushTime (times l) t := by
  unfold times pushSample pushTime
  dsimp only
  have hmap : (l ++ [(t, v)]).map Prod.fst = l.map Prod.fst ++ [t] := by
    rw [List.map_append]
    rfl
  simp only [List.length_append, List.length_map, List.length_cons, List.length_nil]
  split_ifs with hgt
  · rw [← hmap, List.map_tail]
  · exact hmap

theorem tlistN_succ_small (k : Nat) (hk : k < MAX_HISTORY) :
    tlistN k ++ [k + 1] = tlistN (k + 1) := by
  unfold tlistN
  rw [Nat.min_eq_left hk.le, Nat.min_eq_left hk]
  have h3 : k - k + 1 = 1 := by omega
  have h4 : k + 1 - (k + 1) + 1 = 1 := by omega
  rw [h3, h4, List.range'_concat]
  have h5 : 1 + 1 * k = k + 1 := by omega
  rw [h5]

theorem tlistN_succ_big (k : Nat) (hk : MAX_HISTORY ≤ k) :
    (tlistN k ++ [k + 1]).tail = tlistN (k + 1) := by
  have hk' : 300 ≤ k := hk
  unfold tlistN
  rw [Nat.min_eq_right hk, Nat.min_eq_right (by omega : MAX_HISTORY ≤ k + 1)]
  have h300 : MAX_HISTORY = 299 + 1 := rfl
  rw [h300]
  conv_rhs => rw [List.range'_concat]
  conv_lhs => rw [List.range'_succ]
  rw [List.cons_append, List.tail_cons]
  have h1 : k - (299 + 1) + 1 + 1 = k + 1 - (299 + 1) + 1 := by omega
  have h2 : k + 1 - (299 + 1) + 1 + 1 * 299 = k + 1 := by omega
  rw [h1, h2]

theorem tlistN_length (k : Nat) : (tlistN k).length = min k MAX_HISTORY := by
  unfold tlistN
  exact List.length_range' _ _ _

theorem pushTime_tlist (k : Nat) :
    pushTime (tlist k) (((k + 1 : Nat) : ℚ)) = tlist (k + 1) := by
  unfold pushTime tlist
  dsimp only
  have hmap : List.map (fun n : Nat => (n : ℚ)) (tlistN k) ++ [((k + 1 : Nat) : ℚ)] =
      List.map (fun n : Nat => (n : ℚ)) (tlistN k ++ [k + 1]) := by
    rw [List.map_append]
    rfl
  rw [hmap]
  have hlen : (List.map (fun n : Nat => (n : ℚ)) (tlistN k ++ [k + 1])).length =
      min k MAX_HISTORY + 1 := by
    simp only [List.length_map, List.length_append, List.length_cons, List.length_nil,
      tlistN_length]
  by_cases hk : k < MAX_HISTORY
  · rw [if_neg]
    · rw [tlistN_succ_small k hk]
    · rw [hlen]
      omega
  · rw [if_pos]
    · rw [← List.map_tail, tlistN_succ_big k (not_lt.mp hk)]
    · rw [hlen]
      omega

end BallSim

namespace BallSim

theorem tick_paused_inv (sq : ℚ → ℚ) (app : App) : (tick sq app).paused = app.paused := by
  rw [tick]
  split_ifs <;> rfl

theorem tick_balls_length (sq : ℚ → ℚ) (app : App) (hp : app.paused = false) :
    (tick sq app).balls.length = app.balls.length := by
  rw [tick_not_paused sq app hp]
  dsimp only
  rw [List.length_map, collidePass_length, List.length_map]

theorem recordWall_timesQuad (w hgt t : ℚ) (b : Ball) :
    timesQuad (recordBall t (wallBounce w hgt b)) =
      (pushTime (times b.x_history) t, pushTime (times b.y_history) t,
       pushTime (times b.vx_history) t, pushTime (times b.vy_history) t) := by
  unfold timesQuad
  dsimp only [recordBall]
  rw [wallBounce_x_history, wallBounce_y_history, wallBounce_vx_history, wallBounce_vy_history,
    times_pushSample, times_pushSample, times_pushSample, times_pushSample]

theorem map_timesQuad_of_histShape (l l' : List Ball)
    (h : l.map histShape = l'.map histShape) :
    l.map timesQuad = l'.map timesQuad := by
  have h2 : ∀ m : List Ball, m.map timesQuad =
      (m.map histShape).map
        (fun q => (times q.1, times q.2.1, times q.2.2.1, times q.2.2.2)) := by
    intro m
    rw [List.map_map]
    rfl
  rw [h2, h2, h]

theorem run_inv (sq : ℚ → ℚ) (k : Nat) :
    ((tick sq)^[k] App.new).paused = false ∧
    ((tick sq)^[k] App.new).tick_count = k ∧
    ((tick sq)^[k] App.new).balls.map timesQuad =
      [(tlist k, tlist k, tlist k, tlist k)] := by
  induction k with
  | zero => exact ⟨rfl, rfl, rfl⟩
  | succ n ih =>
      obtain ⟨hpause, hcount, hmap⟩ := ih
      rw [Function.iterate_succ_apply']
      refine ⟨?_, ?_, ?_⟩
      · rw [tick_paused_inv, hpause]
      · rw [tick_not_paused sq _ hpause]
        dsimp only
        rw [hcount]
      · rw [tick_not_paused sq _ hpause]
        dsimp only
        rw [hcount]
        have hmoved : (((tick sq)^[n] App.new).balls.map
            (moveBall ((tick sq)^[n] App.new).speed_multiplier)).map timesQuad =
            ((tick sq)^[n] App.new).balls.map timesQuad := by
          rw [List.map_map]
          rfl
        have hcoll : (collidePass sq (((tick sq)^[n] App.new).balls.map
            (moveBall ((tick sq)^[n] App.new).speed_multiplier))).map timesQuad =
            (((tick sq)^[n] App.new).balls.map
              (moveBall ((tick sq)^[n] App.new).speed_multiplier)).map timesQuad :=
          map_timesQuad_of_histShape _ _ (collidePass_map_histShape sq _)
        have hfun : (timesQuad ∘ fun b => recordBall (((n + 1 : Nat) : ℚ))
            (wallBounce ((tick sq)^[n] App.new).area_width
              ((tick sq)^[n] App.new).area_height b)) =
            (fun q : List ℚ × List ℚ × List ℚ × List ℚ =>
              (pushTime q.1 (((n + 1 : Nat) : ℚ)), pushTime q.2.1 (((n + 1 : Nat) : ℚ)),
               pushTime q.2.2.1 (((n + 1 : Nat) : ℚ)),
               pushTime q.2.2.2 (((n + 1 : Nat) : ℚ)))) ∘ timesQuad := by
          funext b
          rw [Function.comp_apply, Function.comp_apply, recordWall_timesQuad]
          rfl
        rw [List.map_map, hfun]
        rw [← List.map_map, hcoll, hmoved, hmap]
        rw [List.map_cons, List.map_nil]
        dsimp only
        rw [pushTime_tlist]

end BallSim

namespace BallSim

/-- C5: histories never exceed the 300-sample cap — the cap is preserved by
the tick step and by every command — and in the concrete 301-tick unpaused
run from the initial state, every body present from the start has exactly
300 retained samples per sequence, no sample tagged with tick 1 (the tick-1
sample was evicted, FIFO), and the oldest retained sample tagged with
tick 2. -/
theorem C5_history_cap (sq : ℚ → ℚ) :
    (∀ app : App, histCapOK app → histCapOK (tick sq app)) ∧
    (∀ app : App, histCapOK app →
      histCapOK (add_ball app) ∧ histCapOK (remove_ball app) ∧
      histCapOK (toggle_pause app) ∧ histCapOK (speed_up app) ∧ histCapOK (speed_down app)) ∧
    (∀ b ∈ ((tick sq)^[301] App.new).balls,
      (b.x_history.length = MAX_HISTORY ∧ (∀ p ∈ b.x_history, p.1 ≠ (1 : ℚ)) ∧
        (b.x_history.map Prod.fst).head? = some (2 : ℚ)) ∧
      (b.y_history.length = MAX_HISTORY ∧ (∀ p ∈ b.y_history, p.1 ≠ (1 : ℚ)) ∧
        (b.y_history.map Prod.fst).head? = some (2 : ℚ)) ∧
      (b.vx_history.length = MAX_HISTORY ∧ (∀ p ∈ b.vx_history, p.1 ≠ (1 : ℚ)) ∧
        (b.vx_history.map Prod.fst).head? = some (2 : ℚ)) ∧
      (b.vy_history.length = MAX_HISTORY ∧ (∀ p ∈ b.vy_history, p.1 ≠ (1 : ℚ)) ∧
        (b.vy_history.map Prod.fst).head? = some (2 : ℚ))) := by
  refine ⟨?_, ?_, ?_⟩
  · intro app hcap
    by_cases hp : app.paused = true
    · rw [tick_paused_eq sq app hp]
      exact hcap
    · have hp' : app.paused = false := by
        cases hpp : app.paused
        · rfl
        · exact absurd hpp hp
      intro b hb
      obtain ⟨i, hi⟩ := List.getElem?_of_mem hb
      have hlt : i < app.balls.length := by
        obtain ⟨hlt', -⟩ := List.getElem?_eq_some_iff.mp hi
        rwa [tick_balls_length sq app hp'] at hlt'
      obtain ⟨bi, hbi⟩ : ∃ bi, app.balls[i]? = some bi :=
        ⟨_, List.getElem?_eq_getElem hlt⟩
      obtain ⟨nb, hnb, hx, hy, hvx, hvy⟩ := tick_ball_history sq app hp' i bi hbi
      have hnbb : nb = b := by
        rw [hnb] at hi
        exact Option.some.inj hi
      obtain ⟨c1, c2, c3, c4⟩ := hcap bi (List.mem_iff_getElem?.mpr ⟨i, hbi⟩)
      rw [← hnbb]
      exact ⟨by rw [hx]; exact pushSample_length_le _ _ c1,
        by rw [hy]; exact pushSample_length_le _ _ c2,
        by rw [hvx]; exact pushSample_length_le _ _ c3,
        by rw [hvy]; exact pushSample_length_le _ _ c4⟩
  · intro app hcap
    refine ⟨?_, ?_, hcap, hcap, hcap⟩
    · intro b hb
      dsimp only [add_ball] at hb
      rcases List.mem_append.mp hb with h | h
      · exact hcap b h
      · have hbe : b = Ball.new _ _ _ _ app.ball_counter := List.mem_singleton.mp h
        rw [hbe]
        exact ⟨Nat.zero_le _, Nat.zero_le _, Nat.zero_le _, Nat.zero_le _⟩
    · rw [remove_ball]
      split_ifs with he
      · exact hcap
      · intro b hb
        exact hcap b (List.dropLast_subset _ hb)
  · intro b hb
    obtain ⟨-, -, hmap⟩ := run_inv sq 301
    have hcomp : ∀ l : List (ℚ × ℚ), times l = tlist 301 →
        l.length = MAX_HISTORY ∧ (∀ p ∈ l, p.1 ≠ (1 : ℚ)) ∧
        (l.map Prod.fst).head? = some (2 : ℚ) := by
      intro l hl
      have h301 : tlistN 301 = List.range' 2 300 := rfl
      refine ⟨?_, ?_, ?_⟩
      · have hlen := congrArg List.length hl
        rw [times, List.length_map, tlist, List.length_map, h301, List.length_range'] at hlen
        rw [hlen]
        rfl
      · intro p hp h1
        have hmem : p.1 ∈ times l := by
          rw [times]
          exact List.mem_map_of_mem _ hp
        rw [hl, tlist, h301] at hmem
        obtain ⟨m, hm, hcast⟩ := List.mem_map.mp hmem
        obtain ⟨i, hi, rfl⟩ := List.mem_range'.mp hm
        rw [h1] at hcast
        have h2 : ((2 + 1 * i : Nat) : ℚ) = ((1 : Nat) : ℚ) := by
          rw [hcast]
          norm_num
        have h3 := Nat.cast_inj.mp h2
        omega
      · rw [show l.map Prod.fst = times l from rfl, hl, tlist, h301,
          show (300 : Nat) = 299 + 1 from rfl, List.range'_succ, List.map_cons, List.head?_cons]
        norm_num
    rcases hballs : ((tick sq)^[301] App.new).balls with _ | ⟨b0, rest⟩
    · rw [hballs] at hb
      exact absurd hb (List.not_mem_nil _)
    · rw [hballs] at hmap hb
      rw [List.map_cons] at hmap
      simp only [List.cons.injEq] at hmap
      have hrest : rest = [] := List.map_eq_nil_iff.mp hmap.2
      rw [hrest] at hb
      have hbb : b = b0 := List.mem_singleton.mp hb
      rw [hbb]
      have hx : times b0.x_history = tlist 301 := congrArg (fun q => q.1) hmap.1
      have hy : times b0.y_history = tlist 301 := congrArg (fun q => q.2.1) hmap.1
      have hvx : times b0.vx_history = tlist 301 := congrArg (fun q => q.2.2.1) hmap.1
      have hvy : times b0.vy_history = tlist 301 := congrArg (fun q => q.2.2.2) hmap.1
      exact ⟨hcomp _ hx, hcomp _ hy, hcomp _ hvx, hcomp _ hvy⟩

/-- Witness for C5: the initial app satisfies the cap (its single ball has
empty histories), so one tick keeps it within the cap. -/
theorem C5_witness : histCapOK (tick (fun q => q) App.new) :=
  (C5_history_cap (fun q => q)).1 App.new (by
    intro b hb
    dsimp only [App.new, add_ball] at hb
    have hbe := List.mem_singleton.mp hb
    rw [hbe]
    exact ⟨Nat.zero_le _, Nat.zero_le _, Nat.zero_le _, Nat.zero_le _⟩)

end BallSim
